import Mathlib

/-!
Verification of the transaction / exchange-rate reconciliation core of the
wex-technical-implementation-project repository (Go).

The development shallowly embeds the Go code:

* `time.Time` values are modelled by `GoTime`: the UTC wall-clock civil
  decomposition (year, month, day, second-of-day) of the instant a
  `time.Time` denotes.  Go's `t.Before u` / `t.After u` compare instants;
  here instants are recovered by `GoTime.toSec`, which converts the civil
  fields to seconds since the Unix epoch using the proleptic Gregorian
  calendar — the same calendar Go's `time` package implements.
  `t.AddDate(y, m, d)` in Go decomposes `t` into its civil fields, offsets
  them, and renormalises (months by floor-division into years, days by
  counting); `GoTime.addDateToSec` performs exactly that computation,
  returning the instant of the shifted time.
* `float64` values are modelled as exact rational numbers together with a
  bit-exact IEEE-754 binary64 round-to-nearest-even operator `flq`
  (normal range; the repository never leaves it).  `math.Round` is exact
  on doubles and is modelled exactly.
* `*big.Float` with precision 64 set from a `float64` is exact, so those
  fields are the same rationals.
* Collaborator state (the BoltDB bucket, the Treasury HTTP response) is
  passed to the embedded functions as explicit values.
-/

namespace Wex

/-! ### Calendar arithmetic (Go `time.Date` day counting)

`daysFromCivil year month day` is the number of days between the Unix epoch
(1970-01-01) and the civil date `(year, month, day)` in the proleptic
Gregorian calendar.  The month is first normalised into `[1, 12]` by
floor-division carry into the year — exactly Go's `norm(year, m0, 12)` in
`time.Date` — and the day offset enters linearly, exactly Go's day
normalisation by absolute day counting.  The era/year-of-era computation is
the standard civil-from-days arithmetic (Go's `dateToAbsDays` up to a
constant offset, which cancels in every comparison the code performs).
Lean's `/` and `%` on `ℤ` are Euclidean, which for the positive literal
divisors used here coincide with the floor semantics of Go's `norm`. -/
def daysFromCivil (year month day : ℤ) : ℤ :=
  let m0 := month - 1
  let y0 := year + m0 / 12
  let mp := (m0 % 12 + 10) % 12
  let yAdj := y0 - mp / 10
  let era := yAdj / 400
  let yoe := yAdj - era * 400
  let doy := (153 * mp + 2) / 5 + (day - 1)
  let doe := yoe * 365 + yoe / 4 - yoe / 100 + doy
  era * 146097 + doe - 719468

/-- Unix epoch sanity: 1970-01-01 is day 0. -/
theorem daysFromCivil_epoch : daysFromCivil 1970 1 1 = 0 := by decide

/-- 2024-07-15 is day 19919 (2024 is a leap year). -/
theorem daysFromCivil_sample : daysFromCivil 2024 7 15 = 19919 := by decide

/-- The day argument enters linearly: one more day is one day later. -/
theorem daysFromCivil_day_add (y m d k : ℤ) :
    daysFromCivil y m (d + k) = daysFromCivil y m d + k := by
  simp only [daysFromCivil]
  omega

/-- Month normalisation: adding 12 months is the same as adding a year. -/
theorem daysFromCivil_month_norm (y m d : ℤ) :
    daysFromCivil y (m + 12) d = daysFromCivil (y + 1) m d := by
  simp only [daysFromCivil]
  omega

/-- One calendar month forward is between 28 and 31 days forward
(for months already in normal form; the bound is the month length). -/
theorem daysFromCivil_month_succ_norm (y m d : ℤ) (h1 : 1 ≤ m) (h2 : m ≤ 12) :
    daysFromCivil y m d + 28 ≤ daysFromCivil y (m + 1) d ∧
    daysFromCivil y (m + 1) d ≤ daysFromCivil y m d + 31 := by
  simp only [daysFromCivil]
  interval_cases m <;> omega

/-- Any month column can be brought into normal form `[1, 12]`. -/
theorem daysFromCivil_normalize (y m d : ℤ) :
    daysFromCivil y m d = daysFromCivil (y + (m - 1) / 12) ((m - 1) % 12 + 1) d := by
  simp only [daysFromCivil]
  omega

/-- One calendar month forward is 28–31 days forward, for any month column. -/
theorem daysFromCivil_month_succ (y m d : ℤ) :
    daysFromCivil y m d + 28 ≤ daysFromCivil y (m + 1) d ∧
    daysFromCivil y (m + 1) d ≤ daysFromCivil y m d + 31 := by
  have hr : 1 ≤ (m - 1) % 12 + 1 ∧ (m - 1) % 12 + 1 ≤ 12 := by omega
  have e1 := daysFromCivil_normalize y m d
  have e2 := daysFromCivil_normalize y (m + 1) d
  rcases lt_or_ge ((m - 1) % 12) 11 with hlt | hge
  · have q1 : (m + 1 - 1) / 12 = (m - 1) / 12 := by omega
    have q2 : (m + 1 - 1) % 12 + 1 = ((m - 1) % 12 + 1) + 1 := by omega
    rw [q1, q2] at e2
    have := daysFromCivil_month_succ_norm (y + (m - 1) / 12) ((m - 1) % 12 + 1) d
      hr.1 (by omega)
    omega
  · have hr11 : (m - 1) % 12 = 11 := by omega
    rw [hr11] at e1
    norm_num at e1
    have q1 : (m + 1 - 1) / 12 = (m - 1) / 12 + 1 := by omega
    have q2 : (m + 1 - 1) % 12 + 1 = 1 := by omega
    rw [q1, q2] at e2
    have assoc : y + ((m - 1) / 12 + 1) = y + (m - 1) / 12 + 1 := by ring
    rw [assoc] at e2
    have h13 := daysFromCivil_month_succ_norm (y + (m - 1) / 12) 12 d
      (by omega) (by omega)
    have hwrap : daysFromCivil (y + (m - 1) / 12) (12 + 1) d
        = daysFromCivil (y + (m - 1) / 12 + 1) 1 d := by
      have := daysFromCivil_month_norm (y + (m - 1) / 12) 1 d
      simpa using this
    omega

/-- Going `k ≥ 1` months forward moves the date strictly (≥ 28·k days) forward. -/
theorem daysFromCivil_month_mono (y m d : ℤ) (k : ℕ) :
    daysFromCivil y m d + 28 * k ≤ daysFromCivil y (m + k) d := by
  induction k with
  | zero => simp
  | succ n ih =>
      have hstep := (daysFromCivil_month_succ y (m + n) d).1
      have : (m + (n + 1 : ℕ)) = (m + n) + 1 := by push_cast; ring
      rw [this]
      push_cast
      push_cast at ih
      omega

/-! ### `time.Time` model -/

/-- A Go `time.Time` (location UTC), given by the civil decomposition of the
instant it stores: wall-clock year, month, day and second of day.  A
`time.Time` denotes exactly one instant and every instant has exactly one
valid civil decomposition, so this is a faithful representation; tuples
outside the valid ranges simply denote the instant their normalisation
denotes, mirroring Go's `time.Date` argument normalisation. -/
structure GoTime where
  year : ℤ
  month : ℤ
  day : ℤ
  sec : ℤ
deriving DecidableEq, Repr

/-- The instant (seconds since the Unix epoch) a `GoTime` denotes.
Go's `Before`/`After`/`Equal` compare these instants. -/
def GoTime.toSec (t : GoTime) : ℤ :=
  daysFromCivil t.year t.month t.day * 86400 + t.sec

/-- Go `t.Before u`: the instant of `t` is strictly earlier. -/
def GoTime.Before (t u : GoTime) : Prop := t.toSec < u.toSec

/-- Go `t.After u`: the instant of `t` is strictly later. -/
def GoTime.After (t u : GoTime) : Prop := u.toSec < t.toSec

instance (t u : GoTime) : Decidable (t.Before u) := by
  unfold GoTime.Before; infer_instance

instance (t u : GoTime) : Decidable (t.After u) := by
  unfold GoTime.After; infer_instance

/-- The instant of Go `t.AddDate(years, months, days)`: offset the civil
fields and renormalise, keeping the clock — exactly Go's implementation
(`Date(year+years, month+months, day+days, hour, min, sec, nsec, loc)`). -/
def GoTime.addDateToSec (t : GoTime) (years months days : ℤ) : ℤ :=
  daysFromCivil (t.year + years) (t.month + months) (t.day + days) * 86400 + t.sec

/-- `AddDate(0, m, 0)` with `m ≥ 1` lands strictly after `t`. -/
theorem addDateToSec_pos_month (t : GoTime) (k : ℕ) (hk : 1 ≤ k) :
    t.toSec < t.addDateToSec 0 k 0 := by
  have h := daysFromCivil_month_mono t.year t.month t.day k
  simp only [GoTime.toSec, GoTime.addDateToSec]
  have : (t.year + 0) = t.year := by ring
  rw [this]
  have : (t.day + 0) = t.day := by ring
  rw [this]
  nlinarith [h, hk]

/-- `AddDate(0, -j, 0)` with `j ≥ 1` lands strictly before `t`, and moving
the month column further down moves the instant further down. -/
theorem addDateToSec_neg_month_lt (t : GoTime) (j k : ℕ) (hjk : j < k) :
    t.addDateToSec 0 (-(k : ℤ)) 0 < t.addDateToSec 0 (-(j : ℤ)) 0 := by
  have h := daysFromCivil_month_mono t.year (t.month - k) t.day (k - j)
  simp only [GoTime.addDateToSec]
  have ey : (t.year + 0) = t.year := by ring
  have ed : (t.day + 0) = t.day := by ring
  rw [ey, ed]
  have e1 : t.month + -(k : ℤ) = t.month - k := by ring
  have e2 : t.month - (k : ℤ) + ((k : ℕ) - (j : ℕ) : ℕ) = t.month + -(j : ℤ) := by
    push_cast [Nat.cast_sub (le_of_lt hjk)]
    ring
  rw [e1]
  rw [e2] at h
  have hpos : (1 : ℤ) ≤ ((k : ℕ) - (j : ℕ) : ℕ) := by
    have : 1 ≤ k - j := by omega
    exact_mod_cast this
  nlinarith [h]

/-- `AddDate(0, -j, 0)` with `j ≥ 0` lands at or before `t`. -/
theorem addDateToSec_neg_month_le (t : GoTime) (j : ℕ) :
    t.addDateToSec 0 (-(j : ℤ)) 0 ≤ t.toSec := by
  rcases Nat.eq_zero_or_pos j with h0 | hpos
  · subst h0
    simp only [GoTime.addDateToSec, GoTime.toSec]
    norm_num
  · have h := addDateToSec_neg_month_lt t 0 j hpos
    have e : t.addDateToSec 0 (-(0 : ℕ) : ℤ) 0 = t.toSec := by
      simp only [GoTime.addDateToSec, GoTime.toSec]
      norm_num
    rw [e] at h
    exact le_of_lt h

/-! ### IEEE-754 binary64 value model

A Go `float64` holds a dyadic rational; arithmetic rounds the exact result
to the nearest representable value, ties to even significand.  `flPair a b`
is that rounding applied to the rational `a / b` (53-bit significand,
unbounded exponent: the repository's values never leave the normal range,
so overflow and subnormal behaviour are irrelevant and not modelled).
Everything is computed with integer arithmetic so the kernel can evaluate
it; rationals are only materialised through `Rat.divInt`. -/

/-- Fuelled `⌊log₂ n⌋` (exact for `n ≥ 1` whenever `n < 2 ^ fuel`). -/
def natLog2F : ℕ → ℕ → ℕ
  | 0, _ => 0
  | fuel + 1, n => if n ≤ 1 then 0 else natLog2F fuel (n / 2) + 1

/-- `a / b ≥ 2 ^ e` for naturals `a`, `b ≥ 1` and a signed exponent. -/
def ratGePow2 (a b : ℕ) (e : ℤ) : Bool :=
  b * 2 ^ e.toNat ≤ a * 2 ^ (-e).toNat

/-- `⌊log₂ (a / b)⌋` for `a, b ≥ 1`. -/
def ratLog2 (a b : ℕ) : ℤ :=
  let c : ℤ := (natLog2F 4096 a : ℤ) - (natLog2F 4096 b : ℤ)
  if ratGePow2 a b c then c else c - 1

/-- Round `P / Q` (for `Q ≥ 1`) to the nearest natural, ties to even. -/
def rne (P Q : ℕ) : ℕ :=
  let n := P / Q
  let r := P % Q
  if 2 * r < Q then n
  else if Q < 2 * r then n + 1
  else if n % 2 = 0 then n else n + 1

/-- Nearest binary64 value to the nonnegative rational `a / b` (`b ≥ 1`). -/
def flNN (a b : ℕ) : ℚ :=
  if a = 0 then mkRat 0 1
  else
    let e := ratLog2 a b
    let sh := 52 - e
    let P := a * 2 ^ sh.toNat
    let Q := b * 2 ^ (-sh).toNat
    let n := rne P Q
    let ee := e - 52
    if 0 ≤ ee then Rat.divInt ((n : ℤ) * 2 ^ ee.toNat) 1
    else Rat.divInt (n : ℤ) (2 ^ (-ee).toNat)

/-- Nearest binary64 value to `a / b` (`b ≥ 1`), any sign. -/
def flPair (a b : ℤ) : ℚ :=
  if 0 ≤ a then flNN a.toNat b.toNat
  else Rat.neg (flNN (-a).toNat b.toNat)

/-- Round a rational already held in a `float64` to the nearest binary64. -/
def flq (x : ℚ) : ℚ := flPair x.num x.den

/-- `x` is exactly representable as a (normal-range) `float64`. -/
def FloatRepresentable (x : ℚ) : Prop := flq x = x

instance (x : ℚ) : Decidable (FloatRepresentable x) := by
  unfold FloatRepresentable; infer_instance

/-- The `float64` denoted by the Go decimal constant `num / den`
(Go converts untyped constants to the nearest `float64`). -/
def dbl (num den : ℤ) : ℚ := flPair num den

/-- Go `math.Round x` (half away from zero) as an integer; exact on doubles. -/
def goRound (x : ℚ) : ℤ :=
  if 0 ≤ x.num then (2 * x.num + x.den) / (2 * x.den)
  else -((2 * (-x.num) + x.den) / (2 * x.den))

/-- Go `x * y` on `float64` values: the exact product, rounded. -/
def mulFloat64 (x y : ℚ) : ℚ := flPair (x.num * y.num) ((x.den : ℤ) * y.den)

/-- `domain.RoundToTwoDecimalPlaces`: `math.Round(value*100) / 100` in
`float64` arithmetic — the multiplication and the division each round. -/
def RoundToTwoDecimalPlaces (value : ℚ) : ℚ :=
  flPair (goRound (flPair (value.num * 100) value.den)) 100

/-- Sanity: the double nearest 0.005 is 5764607523034235 / 2⁶⁰. -/
theorem dbl_sample_0005 :
    dbl 5 1000 = Rat.divInt 5764607523034235 1152921504606846976 := by decide

/-- Sanity: 0.25, 543 and 100 are exactly representable. -/
theorem dbl_sample_exact :
    dbl 1 4 = mkRat 1 4 ∧ dbl 543 1 = mkRat 543 1 ∧
      FloatRepresentable (mkRat 543 1) := by decide

/-! ### Domain model (`internal/core/domain`) -/

/-- ASCII whitespace (Go `strings.TrimSpace` trims Unicode white space; the
payloads and descriptions involved only carry these). -/
def isSpaceChar (c : Char) : Bool :=
  c = ' ' ∨ c = '\t' ∨ c = '\n' ∨ c = '\r'

/-- Go `strings.TrimSpace`. -/
def trimSpace (s : String) : String :=
  ⟨((s.data.dropWhile isSpaceChar).reverse.dropWhile isSpaceChar).reverse⟩

instance {ε α : Type} [DecidableEq ε] [DecidableEq α] : DecidableEq (Except ε α) := fun a b =>
  match a, b with
  | .error e, .error f => decidable_of_iff (e = f) (by simp)
  | .ok x, .ok y => decidable_of_iff (x = y) (by simp)
  | .error _, .ok _ => isFalse (by simp)
  | .ok _, .error _ => isFalse (by simp)

/-- The named error values of the domain layer
(`transaction_errors.go`, `exchange_rate_errors.go`). -/
inductive DomainError where
  | errDescriptionEmpty
  | errDescriptionTooLong
  | errInvalidTimestamp
  | errInvalidAmountInUSD
  | errCurrencyNameEmpty
  | errInvalidExchangeRate
  | errInvalidDateOfRecord
deriving DecidableEq, Repr

/-- `domain.Transaction`.  The UUID is abstracted to a natural number
(construction receives a fresh one); `AmountInUSD` is a `*big.Float` with
precision 64 set from a `float64`, hence exactly a binary64 rational. -/
structure Transaction where
  ID : ℕ
  Description : String
  Timestamp : GoTime
  AmountInUSD : ℚ
deriving DecidableEq, Repr

/-- `domain.ValidateDescription`: emptiness first (returning early), then
the 50-byte limit (`len` in Go counts bytes). -/
def ValidateDescription (description : String) : List DomainError :=
  if description.utf8ByteSize = 0 then [.errDescriptionEmpty]
  else if 50 < description.utf8ByteSize then [.errDescriptionTooLong]
  else []

/-- `domain.ValidateAmountInUSD`: the amount must be strictly positive. -/
def ValidateAmountInUSD (amountInUSD : ℚ) : List DomainError :=
  if amountInUSD ≤ 0 then [.errInvalidAmountInUSD] else []

/-- `domain.ValidateTransaction`: description validators, then the amount
validator, then the timestamp-not-in-future check, all failures
accumulated in order (`time.Now()` is passed in as `now`). -/
def ValidateTransaction (description : String) (timestamp : GoTime)
    (amountInUSD : ℚ) (now : GoTime) : List DomainError :=
  ValidateDescription description ++ ValidateAmountInUSD amountInUSD ++
    (if timestamp.After now then [.errInvalidTimestamp] else [])

/-- `domain.NewTransaction`: trim, validate (accumulating), and only on an
empty error list construct the instance, rounding the amount to two
decimal places. -/
def NewTransaction (description : String) (timestamp : GoTime)
    (amountInUSD : ℚ) (now : GoTime) (freshID : ℕ) :
    Except (List DomainError) Transaction :=
  let trimmed := trimSpace description
  let errs := ValidateTransaction trimmed timestamp amountInUSD now
  if errs = [] then
    .ok { ID := freshID, Description := trimmed, Timestamp := timestamp,
          AmountInUSD := RoundToTwoDecimalPlaces amountInUSD }
  else .error errs

/-- `domain.ExchangeRate`.  (The repository snapshot that defines the
service names the fields `CurrencyName` / `Rate` / `DateOfRecord`; the
`exchange_rate.go` snapshot names them `Currency` / `Rate` / `Date` with
identical semantics.)  `Rate` is a precision-64 `*big.Float` set from a
`float64`, hence exactly a binary64 rational. -/
structure ExchangeRate where
  CurrencyName : String
  Rate : ℚ
  DateOfRecord : GoTime
deriving DecidableEq, Repr

/-- `domain.ValidateExchangeRate`: empty currency name, non-positive rate,
and future record date, accumulated in order. -/
def ValidateExchangeRate (currencyName : String) (rate : ℚ)
    (dateOfRecord now : GoTime) : List DomainError :=
  (if currencyName = "" then [.errCurrencyNameEmpty] else []) ++
    (if rate ≤ 0 then [.errInvalidExchangeRate] else []) ++
      (if dateOfRecord.After now then [.errInvalidDateOfRecord] else [])

/-- `domain.NewExchangeRate`: validate, then construct.  The rate is not
rounded at construction. -/
def NewExchangeRate (currencyName : String) (rate : ℚ)
    (dateOfRecord now : GoTime) : Except (List DomainError) ExchangeRate :=
  let errs := ValidateExchangeRate currencyName rate dateOfRecord now
  if errs = [] then
    .ok { CurrencyName := currencyName, Rate := rate, DateOfRecord := dateOfRecord }
  else .error errs

/-! ### Service and collaborators -/

/-- The named Go error values the retrieval path can return: the BoltDB
repository errors, the Treasury client errors, the client's wrapping of
per-observation failures, and the service's own no-applicable-rate error
(which carries the currency name in its message). -/
inductive GoError where
  | errTransactionNotFound
  | errBucketNotFound
  | errNetworkIssue
  | errTreasuryAPIResponse
  | errDecodingResponse
  | errExchangeRateNotFound
  | errEmptyField
  | errInvalidDay
  | errInvalidMonth
  | errInvalidYear
  | errParsingExchangeRateDateOfRecord
  | errInvalidExchangeRateParse
  | errExchangeRateValidation (errs : List DomainError)
  | errNoExchangeRateWithinSixMonths (currencyName : String)
deriving DecidableEq, Repr

/-- `repository.FindTransaction` (BoltDB): look the identifier up in the
bucket; a missing key yields `ErrTransactionNotFound`.  The bucket is
modelled as the association list of its key/value pairs. -/
def FindTransaction (bucket : List (ℕ × Transaction)) (id : ℕ) :
    Except GoError Transaction :=
  match bucket.lookup id with
  | none => .error .errTransactionNotFound
  | some transaction => .ok transaction

/-- One iteration of the selection loop in
`FindTransactionAndExchangeRateFromCurrency`: skip the rate if it lies
before the window floor (`timestamp.AddDate(0, -6, 0)`); otherwise replace
the best candidate iff there is none yet, or the candidate is dated after
the transaction and before the current best. -/
def closestStep (transaction : Transaction) (best : Option ExchangeRate)
    (exchangeRate : ExchangeRate) : Option ExchangeRate :=
  if exchangeRate.DateOfRecord.toSec < transaction.Timestamp.addDateToSec 0 (-6) 0 then
    best
  else
    match best with
    | none => some exchangeRate
    | some b =>
        if exchangeRate.DateOfRecord.After transaction.Timestamp ∧
            exchangeRate.DateOfRecord.Before b.DateOfRecord then
          some exchangeRate
        else some b

/-- The full selection scan over the fetched series. -/
def closestExchangeRate (transaction : Transaction)
    (exchangeRates : List ExchangeRate) : Option ExchangeRate :=
  exchangeRates.foldl (closestStep transaction) none

/-- The window-floor filter of the selection loop: the rate survives iff
its record date is not before `timestamp.AddDate(0, -6, 0)`. -/
def survivesWindowFloor (transaction : Transaction)
    (exchangeRate : ExchangeRate) : Prop :=
  ¬ exchangeRate.DateOfRecord.toSec < transaction.Timestamp.addDateToSec 0 (-6) 0

instance (t : Transaction) (r : ExchangeRate) : Decidable (survivesWindowFloor t r) := by
  unfold survivesWindowFloor; infer_instance

/-- `services.FindTransactionAndExchangeRateFromCurrency`: fetch the
transaction (propagating any repository error unchanged), fetch the rate
series (propagating any client error unchanged), scan for the closest
rate, and fail with the no-rate-within-six-months error when the scan
finds none.  The repository bucket and the client's result are passed in
as values. -/
def FindTransactionAndExchangeRateFromCurrency
    (bucket : List (ℕ × Transaction)) (id : ℕ) (currencyName : String)
    (exchangeRatesResult : Except GoError (List ExchangeRate)) :
    Except GoError (Transaction × ExchangeRate) :=
  match FindTransaction bucket id with
  | .error e => .error e
  | .ok transaction =>
      match exchangeRatesResult with
      | .error e => .error e
      | .ok exchangeRates =>
          match closestExchangeRate transaction exchangeRates with
          | none => .error (.errNoExchangeRateWithinSixMonths currencyName)
          | some closest => .ok (transaction, closest)

/-! ### HTTP handler display computation (`internal/adapters/handler`) -/

/-- `handler.TransactionDTO` (the timestamp is serialised as a string in
Go; its value is kept here since formatting is out of scope). -/
structure TransactionDTO where
  ID : ℕ
  Description : String
  Timestamp : GoTime
  AmountInUSD : ℚ
  ExchangeRateUsed : ℚ
  AmountInTargetCurrency : ℚ
deriving DecidableEq, Repr

/-- The DTO built by `handler.FindTransactionWithCurrencyConversion` on a
successful service call: `Float64()` on the precision-64 big floats is
exact, both operands are rounded to two decimals, and the target amount is
the rounded `float64` product of the two rounded operands. -/
def FindTransactionWithCurrencyConversion (transaction : Transaction)
    (exchangeRate : ExchangeRate) : TransactionDTO :=
  let transactionAmountInUSD := RoundToTwoDecimalPlaces transaction.AmountInUSD
  let exchangeRateUsed := RoundToTwoDecimalPlaces exchangeRate.Rate
  { ID := transaction.ID
    Description := transaction.Description
    Timestamp := transaction.Timestamp
    AmountInUSD := transactionAmountInUSD
    ExchangeRateUsed := exchangeRateUsed
    AmountInTargetCurrency :=
      RoundToTwoDecimalPlaces (mulFloat64 transactionAmountInUSD exchangeRateUsed) }

/-! ### Treasury client response processing (`internal/adapters/client`) -/

/-- One observation of the decoded Treasury API payload (all fields are
strings in the JSON). -/
structure RawExchangeRateData where
  currency : String
  exchangeRate : String
  recordDay : String
  recordMonth : String
  recordYear : String
deriving DecidableEq, Repr

/-- All-digit run to a natural number (`none` if empty or non-digit). -/
def digitsToNat (cs : List Char) : Option ℕ :=
  match cs with
  | [] => none
  | _ =>
      cs.foldl
        (fun acc c =>
          match acc with
          | none => none
          | some n => if c.isDigit then some (n * 10 + (c.toNat - 48)) else none)
        (some 0)

/-- Go `strconv.Atoi`: optional sign then decimal digits (the int64 range
check is immaterial for the day/month/year fields and not modelled). -/
def Atoi (s : String) : Option ℤ :=
  match s.data with
  | [] => none
  | '+' :: rest => (digitsToNat rest).map (fun n => (n : ℤ))
  | '-' :: rest => (digitsToNat rest).map (fun n => -(n : ℤ))
  | cs => (digitsToNat cs).map (fun n => (n : ℤ))

/-- Go `strconv.ParseFloat(s, 64)` on the plain decimal forms the Treasury
payload uses (optional sign, digits, optional fractional digits): the
nearest `float64` to the decimal value.  Other accepted Go syntaxes
(exponents, hex floats, `Inf`) do not occur and are not modelled. -/
def ParseFloat64 (s : String) : Option ℚ :=
  let core : List Char → Option ℚ := fun cs =>
    match cs.span (fun c => c ≠ '.') with
    | (intPart, []) => (digitsToNat intPart).map (fun n => dbl n 1)
    | (intPart, _ :: fracPart) =>
        match digitsToNat intPart, digitsToNat fracPart with
        | some i, some f =>
            some (dbl (i * 10 ^ fracPart.length + f) (10 ^ fracPart.length))
        | _, _ => none
  match s.data with
  | [] => none
  | '+' :: rest => core rest
  | '-' :: rest => (core rest).map Rat.neg
  | cs => core cs

/-- `client.ParseDateFromResponse`: trim the three fields, reject empties,
parse and range-check day (1–31) and month (1–12), parse the year, and
build `time.Date(year, month, day, 0, 0, 0, 0, time.UTC)`. -/
def ParseDateFromResponse (dayString monthString yearString : String) :
    Except GoError GoTime :=
  let dayString := trimSpace dayString
  let monthString := trimSpace monthString
  let yearString := trimSpace yearString
  if yearString = "" ∨ monthString = "" ∨ dayString = "" then .error .errEmptyField
  else
    match Atoi dayString with
    | none => .error .errInvalidDay
    | some day =>
        if day < 1 ∨ 31 < day then .error .errInvalidDay
        else
          match Atoi monthString with
          | none => .error .errInvalidMonth
          | some month =>
              if month < 1 ∨ 12 < month then .error .errInvalidMonth
              else
                match Atoi yearString with
                | none => .error .errInvalidYear
                | some year => .ok ⟨year, month, day, 0⟩

/-- The body of one iteration of the `ProcessResponse` loop: parse the
record date (failures wrapped into the date-of-record parsing error),
parse the rate, and construct the validated `domain.ExchangeRate`
(validation failures joined into one error). -/
def processObservation (now : GoTime) (item : RawExchangeRateData) :
    Except GoError ExchangeRate :=
  match ParseDateFromResponse item.recordDay item.recordMonth item.recordYear with
  | .error _ => .error .errParsingExchangeRateDateOfRecord
  | .ok dateOfRecord =>
      match ParseFloat64 item.exchangeRate with
      | none => .error .errInvalidExchangeRateParse
      | some rate =>
          match NewExchangeRate item.currency rate dateOfRecord now with
          | .error errs => .error (.errExchangeRateValidation errs)
          | .ok exchangeRate => .ok exchangeRate

/-- The `ProcessResponse` loop: process observations left to right,
returning the first failure immediately (discarding everything parsed so
far), or the full list if every observation succeeds. -/
def processObservations (now : GoTime) :
    List RawExchangeRateData → Except GoError (List ExchangeRate)
  | [] => .ok []
  | item :: rest =>
      match processObservation now item with
      | .error e => .error e
      | .ok exchangeRate =>
          match processObservations now rest with
          | .error e => .error e
          | .ok exchangeRates => .ok (exchangeRate :: exchangeRates)

/-- `client.ProcessResponse`: reject non-200 statuses, reject undecodable
bodies, reject an empty data array, then run the loop.  The decoded body
is passed in as a value (`.error ()` standing for a JSON decode failure). -/
def ProcessResponse (now : GoTime) (statusCode : ℤ)
    (decodedBody : Except Unit (List RawExchangeRateData)) :
    Except GoError (List ExchangeRate) :=
  if statusCode ≠ 200 then .error .errTreasuryAPIResponse
  else
    match decodedBody with
    | .error _ => .error .errDecodingResponse
    | .ok data =>
        if data = [] then .error .errExchangeRateNotFound
        else processObservations now data

/-! ### Spec-side rounding (for the refinement comparison in C8) -/

/-- Spec-side rounding, following §4.1 of the specification word for word:
multiply by 100, round to the nearest integer with ties away from zero,
divide by 100 — carried out exactly (on an ideal decimal / extended
precision value, with no intermediate binary rounding). -/
def specRoundToTwoDecimalPlaces (value : ℚ) : ℚ :=
  ((goRound (value * 100) : ℤ) : ℚ) / 100

/-- `math.Round` fixes every integer. -/
theorem goRound_intCast (n : ℤ) : goRound ((n : ℚ)) = n := by
  unfold goRound
  rw [Rat.num_intCast, Rat.den_intCast]
  rcases le_or_lt 0 n with h | h
  · rw [if_pos h]
    omega
  · rw [if_neg (not_le.mpr h)]
    omega

/-! ### Claim theorems -/

/-- C2: `RoundToTwoDecimalPlaces` satisfies the four boundary fixtures
`round2(0.005) = 0.01`, `round2(123.454) = 123.45`,
`round2(123.455) = 123.46` and `round2(-123.456) = -123.46`.  Each input
is the `float64` nearest the decimal literal and each output is the
`float64` of the correct half-away-from-zero two-decimal rounding of that
literal, so at these boundary points the binary representation error does
not disturb the result. -/
theorem C2_rounding_fixtures :
    RoundToTwoDecimalPlaces (dbl 5 1000) = dbl 1 100 ∧
    RoundToTwoDecimalPlaces (dbl 123454 1000) = dbl 12345 100 ∧
    RoundToTwoDecimalPlaces (dbl 123455 1000) = dbl 12346 100 ∧
    RoundToTwoDecimalPlaces (dbl (-123456) 1000) = dbl (-12346) 100 := by decide

/-- C8 (counterexample): the `float64` implementation of
`RoundToTwoDecimalPlaces` is not idempotent on every representable input:
at `x = 2320242191635921 / 64 ≈ 36253784244311.266` a second application
changes the value again (`…311.27` becomes `…311.28`). -/
theorem C8_counterexample :
    FloatRepresentable (Rat.divInt 2320242191635921 64) ∧
    RoundToTwoDecimalPlaces (RoundToTwoDecimalPlaces (Rat.divInt 2320242191635921 64)) ≠
      RoundToTwoDecimalPlaces (Rat.divInt 2320242191635921 64) := by decide

/-- C8 (amended): rounding to two decimal places is idempotent when the
multiply–round–divide is carried out exactly (the decimal / extended
precision semantics the spec prescribes); the `float64` implementation
violates idempotence only through intermediate binary rounding. -/
theorem C8_amended_idempotent (value : ℚ) :
    specRoundToTwoDecimalPlaces (specRoundToTwoDecimalPlaces value)
      = specRoundToTwoDecimalPlaces value := by
  unfold specRoundToTwoDecimalPlaces
  have h : ((goRound (value * 100) : ℤ) : ℚ) / 100 * 100 = ((goRound (value * 100) : ℤ) : ℚ) := by
    field_simp
  rw [h, goRound_intCast]

/-- A key absent from every bucket entry is not found. -/
theorem lookup_eq_none_of_absent (bucket : List (ℕ × Transaction)) (id : ℕ)
    (h : ∀ p ∈ bucket, p.1 ≠ id) : bucket.lookup id = none := by
  induction bucket with
  | nil => rfl
  | cons p rest ih =>
      obtain ⟨k, v⟩ := p
      have hp : k ≠ id := h (k, v) (by simp)
      simp only [List.lookup]
      rw [show (id == k) = false from beq_eq_false_iff_ne.mpr (Ne.symm hp)]
      exact ih (fun q hq => h q (by simp [hq]))

/-- C6: for an identifier absent from storage the service returns the
repository's `ErrTransactionNotFound` value itself, unwrapped, whatever
the rate series fetch would return — never the no-applicable-rate
failure. -/
theorem C6_notFound_propagation (bucket : List (ℕ × Transaction)) (id : ℕ)
    (currencyName : String) (ratesResult : Except GoError (List ExchangeRate))
    (habsent : ∀ p ∈ bucket, p.1 ≠ id) :
    FindTransactionAndExchangeRateFromCurrency bucket id currencyName ratesResult
        = .error .errTransactionNotFound ∧
      ∀ c, FindTransactionAndExchangeRateFromCurrency bucket id currencyName ratesResult
        ≠ .error (.errNoExchangeRateWithinSixMonths c) := by
  have hfind : FindTransaction bucket id = .error .errTransactionNotFound := by
    unfold FindTransaction
    rw [lookup_eq_none_of_absent bucket id habsent]
  constructor
  · unfold FindTransactionAndExchangeRateFromCurrency
    rw [hfind]
  · intro c
    unfold FindTransactionAndExchangeRateFromCurrency
    rw [hfind]
    simp

/-- C6 witness: the empty bucket at identifier 7. -/
theorem C6_witness :
    FindTransactionAndExchangeRateFromCurrency [] 7 "Real" (.ok [])
      = .error .errTransactionNotFound :=
  (C6_notFound_propagation [] 7 "Real" (.ok []) (by simp)).1

/-- When every rate falls before the window floor the scan selects nothing. -/
theorem closestExchangeRate_eq_none (transaction : Transaction)
    (exchangeRates : List ExchangeRate)
    (h : ∀ r ∈ exchangeRates,
      r.DateOfRecord.toSec < transaction.Timestamp.addDateToSec 0 (-6) 0) :
    closestExchangeRate transaction exchangeRates = none := by
  unfold closestExchangeRate
  induction exchangeRates with
  | nil => rfl
  | cons r rest ih =>
      simp only [List.foldl]
      have hstep : closestStep transaction none r = none := by
        unfold closestStep
        rw [if_pos (h r (by simp))]
      rw [hstep]
      exact ih (fun q hq => h q (by simp [hq]))

/-- C7: when the transaction is found and the series is fetched but every
rate lies before the window floor, the service fails with the
no-rate-within-six-months error for that currency (and no value); that
error is a distinct kind from the not-found and collaborator errors. -/
theorem C7_noApplicableRate (bucket : List (ℕ × Transaction)) (id : ℕ)
    (transaction : Transaction) (currencyName : String)
    (exchangeRates : List ExchangeRate)
    (hfound : bucket.lookup id = some transaction)
    (hall : ∀ r ∈ exchangeRates,
      r.DateOfRecord.toSec < transaction.Timestamp.addDateToSec 0 (-6) 0) :
    FindTransactionAndExchangeRateFromCurrency bucket id currencyName (.ok exchangeRates)
        = .error (.errNoExchangeRateWithinSixMonths currencyName) ∧
      GoError.errNoExchangeRateWithinSixMonths currencyName ≠ .errTransactionNotFound ∧
      GoError.errNoExchangeRateWithinSixMonths currencyName ≠ .errNetworkIssue ∧
      GoError.errNoExchangeRateWithinSixMonths currencyName ≠ .errTreasuryAPIResponse ∧
      GoError.errNoExchangeRateWithinSixMonths currencyName ≠ .errDecodingResponse ∧
      GoError.errNoExchangeRateWithinSixMonths currencyName ≠ .errExchangeRateNotFound := by
  refine ⟨?_, by simp, by simp, by simp, by simp, by simp⟩
  unfold FindTransactionAndExchangeRateFromCurrency FindTransaction
  rw [hfound]
  dsimp only
  rw [closestExchangeRate_eq_none transaction exchangeRates hall]

/-- C7 witness: a stored transaction dated 2023-11-06 and a single rate
dated 2023-01-06, ten months earlier. -/
theorem C7_witness :
    FindTransactionAndExchangeRateFromCurrency
        [(1, ⟨1, "Sample", ⟨2023, 11, 6, 0⟩, mkRat 2875 100⟩)] 1 "Real"
        (.ok [⟨"Real", mkRat 525 100, ⟨2023, 1, 6, 0⟩⟩])
      = .error (.errNoExchangeRateWithinSixMonths "Real") :=
  (C7_noApplicableRate
    [(1, ⟨1, "Sample", ⟨2023, 11, 6, 0⟩, mkRat 2875 100⟩)] 1
    ⟨1, "Sample", ⟨2023, 11, 6, 0⟩, mkRat 2875 100⟩ "Real"
    [⟨"Real", mkRat 525 100, ⟨2023, 1, 6, 0⟩⟩]
    (by decide) (by decide)).1

/-- C5: a transaction whose description is empty after trimming and whose
amount is negative (with a timestamp not in the future) is rejected with
no instance and exactly the two failures, description-emptiness first and
amount-positivity second — the validators accumulate instead of stopping
at the first failure. -/
theorem C5_validation_accumulation (description : String) (timestamp now : GoTime)
    (amountInUSD : ℚ) (freshID : ℕ)
    (hdesc : trimSpace description = "")
    (hamount : amountInUSD < 0)
    (hts : ¬ timestamp.After now) :
    NewTransaction description timestamp amountInUSD now freshID
      = .error [.errDescriptionEmpty, .errInvalidAmountInUSD] := by
  simp only [NewTransaction, ValidateTransaction, ValidateDescription, ValidateAmountInUSD]
  rw [hdesc]
  have h0 : ("" : String).utf8ByteSize = 0 := rfl
  rw [if_pos h0, if_pos (le_of_lt hamount), if_neg hts]
  simp

/-- C5 witness: blank description, amount −10, timestamp 2023-11-06
against a clock reading 2024-01-01. -/
theorem C5_witness :
    trimSpace "  " = "" ∧ mkRat (-10) 1 < 0 ∧
      ¬ (GoTime.mk 2023 11 6 0).After ⟨2024, 1, 1, 0⟩ ∧
      NewTransaction "  " ⟨2023, 11, 6, 0⟩ (mkRat (-10) 1) ⟨2024, 1, 1, 0⟩ 0
        = .error [.errDescriptionEmpty, .errInvalidAmountInUSD] :=
  ⟨by decide, by decide, by decide,
    C5_validation_accumulation "  " ⟨2023, 11, 6, 0⟩ ⟨2024, 1, 1, 0⟩
      (mkRat (-10) 1) 0 (by decide) (by decide) (by decide)⟩

/-- Shifting the day argument of `AddDate` moves the instant linearly. -/
theorem addDateToSec_day_add (t : GoTime) (yy mm d k : ℤ) :
    t.addDateToSec yy mm (d + k) = t.addDateToSec yy mm d + k * 86400 := by
  unfold GoTime.addDateToSec
  have e : t.day + (d + k) = (t.day + d) + k := by ring
  rw [e, daysFromCivil_day_add (t.year + yy) (t.month + mm) (t.day + d) k]
  ring

/-- C3: a rate dated exactly six months minus one day before the
transaction timestamp survives the window-floor filter, while a rate dated
exactly six months and one day before is discarded — alone in the series
it yields no candidate at all. -/
theorem C3_window_floor (transaction : Transaction) (r1 r2 : ExchangeRate)
    (h1 : r1.DateOfRecord.toSec = transaction.Timestamp.addDateToSec 0 (-6) 1)
    (h2 : r2.DateOfRecord.toSec = transaction.Timestamp.addDateToSec 0 (-6) (-1)) :
    survivesWindowFloor transaction r1 ∧ ¬ survivesWindowFloor transaction r2 ∧
      closestExchangeRate transaction [r2] = none := by
  have hplus := addDateToSec_day_add transaction.Timestamp 0 (-6) 0 1
  have hminus := addDateToSec_day_add transaction.Timestamp 0 (-6) 0 (-1)
  norm_num at hplus hminus
  refine ⟨?_, ?_, ?_⟩
  · unfold survivesWindowFloor
    rw [h1, hplus]
    omega
  · unfold survivesWindowFloor
    rw [h2, hminus]
    omega
  · refine closestExchangeRate_eq_none transaction [r2] ?_
    intro r hr
    simp only [List.mem_singleton] at hr
    subst hr
    rw [h2, hminus]
    omega

/-- C3 witness: transaction timestamp 2024-07-15 01:00 UTC, rates dated
2024-01-16 and 2024-01-14 at the same clock time. -/
theorem C3_witness :
    survivesWindowFloor ⟨2, "Sample", ⟨2024, 7, 15, 3600⟩, mkRat 100 1⟩
        ⟨"Real", mkRat 5 1, ⟨2024, 1, 16, 3600⟩⟩ ∧
      ¬ survivesWindowFloor ⟨2, "Sample", ⟨2024, 7, 15, 3600⟩, mkRat 100 1⟩
          ⟨"Real", mkRat 5 1, ⟨2024, 1, 14, 3600⟩⟩ ∧
      closestExchangeRate ⟨2, "Sample", ⟨2024, 7, 15, 3600⟩, mkRat 100 1⟩
          [⟨"Real", mkRat 5 1, ⟨2024, 1, 14, 3600⟩⟩] = none :=
  C3_window_floor ⟨2, "Sample", ⟨2024, 7, 15, 3600⟩, mkRat 100 1⟩
    ⟨"Real", mkRat 5 1, ⟨2024, 1, 16, 3600⟩⟩
    ⟨"Real", mkRat 5 1, ⟨2024, 1, 14, 3600⟩⟩ (by decide) (by decide)

/-- C1 (counterexample): transaction dated 2024-07-15; candidates dated
2024-04-15 (−3 months) and 2024-08-15 (+1 month), both inside the window
and the latter forward-dated — yet with the −3-month candidate first in
the series the scan keeps it and does not select the +1-month candidate. -/
theorem C1_counterexample :
    survivesWindowFloor ⟨0, "Sample", ⟨2024, 7, 15, 0⟩, mkRat 100 1⟩
        ⟨"Real", mkRat 5 1, ⟨2024, 4, 15, 0⟩⟩ ∧
      survivesWindowFloor ⟨0, "Sample", ⟨2024, 7, 15, 0⟩, mkRat 100 1⟩
          ⟨"Real", mkRat 6 1, ⟨2024, 8, 15, 0⟩⟩ ∧
      (GoTime.mk 2024 8 15 0).After ⟨2024, 7, 15, 0⟩ ∧
      closestExchangeRate ⟨0, "Sample", ⟨2024, 7, 15, 0⟩, mkRat 100 1⟩
          [⟨"Real", mkRat 5 1, ⟨2024, 4, 15, 0⟩⟩, ⟨"Real", mkRat 6 1, ⟨2024, 8, 15, 0⟩⟩]
        = some ⟨"Real", mkRat 5 1, ⟨2024, 4, 15, 0⟩⟩ ∧
      (ExchangeRate.mk "Real" (mkRat 5 1) ⟨2024, 4, 15, 0⟩)
        ≠ ⟨"Real", mkRat 6 1, ⟨2024, 8, 15, 0⟩⟩ := by decide

/-- C1 (amended): with candidates at −3 months and +1 month (both inside
the window), the outcome depends on the series order: the forward-dated
+1-month candidate is selected when it precedes the −3-month candidate,
but when the −3-month candidate comes first it is kept and selected. -/
theorem C1_amended_order_dependent (transaction : Transaction)
    (rm3 rp1 : ExchangeRate)
    (hm3 : rm3.DateOfRecord.toSec = transaction.Timestamp.addDateToSec 0 (-3) 0)
    (hp1 : rp1.DateOfRecord.toSec = transaction.Timestamp.addDateToSec 0 1 0) :
    closestExchangeRate transaction [rp1, rm3] = some rp1 ∧
      closestExchangeRate transaction [rm3, rp1] = some rm3 := by
  have fA := addDateToSec_neg_month_lt transaction.Timestamp 3 6 (by norm_num)
  have fB := addDateToSec_neg_month_le transaction.Timestamp 3
  have fC := addDateToSec_pos_month transaction.Timestamp 1 (by norm_num)
  have fD := addDateToSec_neg_month_le transaction.Timestamp 6
  norm_num at fA fB fC fD
  have hm3_floor : ¬ rm3.DateOfRecord.toSec < transaction.Timestamp.addDateToSec 0 (-6) 0 := by
    rw [hm3]; omega
  have hp1_floor : ¬ rp1.DateOfRecord.toSec < transaction.Timestamp.addDateToSec 0 (-6) 0 := by
    rw [hp1]; omega
  have hm3_notAfter : ¬ rm3.DateOfRecord.After transaction.Timestamp := by
    unfold GoTime.After
    rw [hm3]; omega
  have hp1_after : rp1.DateOfRecord.After transaction.Timestamp := by
    unfold GoTime.After
    rw [hp1]; omega
  have hp1_notBefore : ¬ rp1.DateOfRecord.Before rm3.DateOfRecord := by
    unfold GoTime.Before
    rw [hp1, hm3]; omega
  constructor
  · unfold closestExchangeRate
    simp only [List.foldl]
    have s1 : closestStep transaction none rp1 = some rp1 := by
      unfold closestStep
      rw [if_neg hp1_floor]
    rw [s1]
    unfold closestStep
    rw [if_neg hm3_floor]
    dsimp only
    rw [if_neg (fun hc => hm3_notAfter hc.1)]
  · unfold closestExchangeRate
    simp only [List.foldl]
    have s1 : closestStep transaction none rm3 = some rm3 := by
      unfold closestStep
      rw [if_neg hm3_floor]
    rw [s1]
    unfold closestStep
    rw [if_neg hp1_floor]
    dsimp only
    rw [if_neg (fun hc => hp1_notBefore hc.2)]

/-- C1 witness: the amended statement at the concrete 2024-07-15
transaction with candidates dated 2024-04-15 and 2024-08-15. -/
theorem C1_witness :
    closestExchangeRate ⟨1, "Sample", ⟨2024, 7, 15, 0⟩, mkRat 100 1⟩
        [⟨"Real", mkRat 6 1, ⟨2024, 8, 15, 0⟩⟩, ⟨"Real", mkRat 5 1, ⟨2024, 4, 15, 0⟩⟩]
      = some ⟨"Real", mkRat 6 1, ⟨2024, 8, 15, 0⟩⟩ ∧
    closestExchangeRate ⟨1, "Sample", ⟨2024, 7, 15, 0⟩, mkRat 100 1⟩
        [⟨"Real", mkRat 5 1, ⟨2024, 4, 15, 0⟩⟩, ⟨"Real", mkRat 6 1, ⟨2024, 8, 15, 0⟩⟩]
      = some ⟨"Real", mkRat 5 1, ⟨2024, 4, 15, 0⟩⟩ :=
  C1_amended_order_dependent ⟨1, "Sample", ⟨2024, 7, 15, 0⟩, mkRat 100 1⟩
    ⟨"Real", mkRat 5 1, ⟨2024, 4, 15, 0⟩⟩ ⟨"Real", mkRat 6 1, ⟨2024, 8, 15, 0⟩⟩
    (by decide) (by decide)

/-- C10 (counterexample): a forward-dated rate years past the transaction
(2030-01-01 against 2023-11-06) is eligible — the window has no ceiling —
but when an in-window past-dated candidate precedes it in the series, the
past-dated candidate is selected, refuting "will be selected in preference
to any past-dated candidate". -/
theorem C10_counterexample :
    survivesWindowFloor ⟨0, "Sample", ⟨2023, 11, 6, 0⟩, mkRat 2875 100⟩
        ⟨"Real", mkRat 6 1, ⟨2030, 1, 1, 0⟩⟩ ∧
      (GoTime.mk 2030 1 1 0).After ⟨2023, 11, 6, 0⟩ ∧
      survivesWindowFloor ⟨0, "Sample", ⟨2023, 11, 6, 0⟩, mkRat 2875 100⟩
          ⟨"Real", mkRat 525 100, ⟨2023, 9, 1, 0⟩⟩ ∧
      closestExchangeRate ⟨0, "Sample", ⟨2023, 11, 6, 0⟩, mkRat 2875 100⟩
          [⟨"Real", mkRat 525 100, ⟨2023, 9, 1, 0⟩⟩, ⟨"Real", mkRat 6 1, ⟨2030, 1, 1, 0⟩⟩]
        = some ⟨"Real", mkRat 525 100, ⟨2023, 9, 1, 0⟩⟩ ∧
      (ExchangeRate.mk "Real" (mkRat 525 100) ⟨2023, 9, 1, 0⟩)
        ≠ ⟨"Real", mkRat 6 1, ⟨2030, 1, 1, 0⟩⟩ := by decide

/-- C10 (amended): the candidate window has a floor but no ceiling — any
rate dated at or after the transaction timestamp is eligible no matter how
far in the future it lies — and such a forward-dated rate is selected in
preference to a past-dated in-window candidate exactly when it precedes
that candidate in the series. -/
theorem C10_amended_no_ceiling (transaction : Transaction) :
    (∀ r : ExchangeRate,
      transaction.Timestamp.toSec ≤ r.DateOfRecord.toSec →
        survivesWindowFloor transaction r) ∧
    (∀ rPast rFut : ExchangeRate,
      transaction.Timestamp.addDateToSec 0 (-6) 0 ≤ rPast.DateOfRecord.toSec →
      rPast.DateOfRecord.toSec ≤ transaction.Timestamp.toSec →
      transaction.Timestamp.toSec < rFut.DateOfRecord.toSec →
        closestExchangeRate transaction [rFut, rPast] = some rFut) := by
  have fD := addDateToSec_neg_month_le transaction.Timestamp 6
  norm_num at fD
  constructor
  · intro r hr
    unfold survivesWindowFloor
    omega
  · intro rPast rFut hPastFloor hPastLe hFutGt
    unfold closestExchangeRate
    simp only [List.foldl]
    have s1 : closestStep transaction none rFut = some rFut := by
      unfold closestStep
      rw [if_neg (by omega)]
    rw [s1]
    unfold closestStep
    rw [if_neg (by omega)]
    dsimp only
    have hnotAfter : ¬ rPast.DateOfRecord.After transaction.Timestamp := by
      unfold GoTime.After
      omega
    rw [if_neg (fun hc => hnotAfter hc.1)]

/-- C10 witness: the amended statement at the 2023-11-06 transaction with
the 2030-01-01 forward-dated rate first and the 2023-09-01 rate second. -/
theorem C10_witness :
    closestExchangeRate ⟨3, "Sample", ⟨2023, 11, 6, 0⟩, mkRat 2875 100⟩
        [⟨"Real", mkRat 6 1, ⟨2030, 1, 1, 0⟩⟩, ⟨"Real", mkRat 525 100, ⟨2023, 9, 1, 0⟩⟩]
      = some ⟨"Real", mkRat 6 1, ⟨2030, 1, 1, 0⟩⟩ :=
  (C10_amended_no_ceiling ⟨3, "Sample", ⟨2023, 11, 6, 0⟩, mkRat 2875 100⟩).2
    ⟨"Real", mkRat 525 100, ⟨2023, 9, 1, 0⟩⟩ ⟨"Real", mkRat 6 1, ⟨2030, 1, 1, 0⟩⟩
    (by decide) (by decide) (by decide)

/-- C4: on every successful retrieval the displayed target amount is the
two-decimal rounding of the `float64` product of the two-decimal roundings
of the stored amount and of the rate — double rounding, not a single
rounding of the raw product; in particular amount 100.004 and rate 5.4345
display as 543.00. -/
theorem C4_conversion_double_rounding :
    (∀ (transaction : Transaction) (exchangeRate : ExchangeRate),
      (FindTransactionWithCurrencyConversion transaction exchangeRate).AmountInTargetCurrency
        = RoundToTwoDecimalPlaces
            (mulFloat64 (RoundToTwoDecimalPlaces transaction.AmountInUSD)
              (RoundToTwoDecimalPlaces exchangeRate.Rate))) ∧
    (∀ (transaction : Transaction) (exchangeRate : ExchangeRate),
      transaction.AmountInUSD = dbl 100004 1000 →
      exchangeRate.Rate = dbl 54345 10000 →
      (FindTransactionWithCurrencyConversion transaction exchangeRate).AmountInTargetCurrency
        = mkRat 543 1) := by
  constructor
  · intro transaction exchangeRate
    rfl
  · intro transaction exchangeRate h1 h2
    simp only [FindTransactionWithCurrencyConversion]
    rw [h1, h2]
    decide

/-- C4 witness: the fixture transaction and rate displayed as 543.00. -/
theorem C4_witness :
    (FindTransactionWithCurrencyConversion
        ⟨4, "Sample", ⟨2023, 11, 6, 0⟩, dbl 100004 1000⟩
        ⟨"Real", dbl 54345 10000, ⟨2023, 9, 1, 0⟩⟩).AmountInTargetCurrency
      = mkRat 543 1 :=
  C4_conversion_double_rounding.2
    ⟨4, "Sample", ⟨2023, 11, 6, 0⟩, dbl 100004 1000⟩
    ⟨"Real", dbl 54345 10000, ⟨2023, 9, 1, 0⟩⟩ rfl rfl

/-- If any observation fails, the loop returns an error. -/
theorem processObservations_error_of_mem (now : GoTime)
    (data : List RawExchangeRateData)
    (hex : ∃ item ∈ data, ∃ e, processObservation now item = .error e) :
    ∃ e, processObservations now data = .error e := by
  induction data with
  | nil =>
      obtain ⟨item, hmem, _⟩ := hex
      simp at hmem
  | cons it rest ih =>
      obtain ⟨item, hmem, e, herr⟩ := hex
      rcases List.mem_cons.mp hmem with rfl | hmem'
      · cases hrest : processObservations now rest with
        | error e' =>
            cases hcase : processObservation now item with
            | error e0 => exact ⟨e0, by simp only [processObservations]; rw [hcase]⟩
            | ok r => exact ⟨e', by simp only [processObservations]; rw [hcase, hrest]⟩
        | ok rs =>
            refine ⟨e, ?_⟩
            simp only [processObservations]
            rw [herr]
      · cases hcase : processObservation now it with
        | error e' => exact ⟨e', by simp only [processObservations]; rw [hcase]⟩
        | ok r =>
            obtain ⟨e', he'⟩ := ih ⟨item, hmem', e, herr⟩
            exact ⟨e', by simp only [processObservations]; rw [hcase, he']⟩

/-- If the loop succeeds, every observation parsed and validated, and the
result has one rate per observation. -/
theorem processObservations_ok (now : GoTime) (data : List RawExchangeRateData)
    (rates : List ExchangeRate) (h : processObservations now data = .ok rates) :
    rates.length = data.length ∧
      ∀ item ∈ data, ∃ r, processObservation now item = .ok r := by
  induction data generalizing rates with
  | nil =>
      simp only [processObservations] at h
      injection h with h'
      subst h'
      exact ⟨rfl, by simp⟩
  | cons it rest ih =>
      simp only [processObservations] at h
      cases hcase : processObservation now it with
      | error e =>
          rw [hcase] at h
          cases h
      | ok r =>
          rw [hcase] at h
          cases hrest : processObservations now rest with
          | error e =>
              rw [hrest] at h
              cases h
          | ok rs =>
              rw [hrest] at h
              injection h with h'
              subst h'
              obtain ⟨hlen, hall⟩ := ih rs hrest
              refine ⟨by simp [hlen], ?_⟩
              intro item hmem
              rcases List.mem_cons.mp hmem with rfl | hmem'
              · exact ⟨r, hcase⟩
              · exact hall item hmem'

/-- C9: processing the Treasury response is all-or-nothing — if any single
observation fails date parsing, rate parsing, or `ExchangeRate`
construction validation, `ProcessResponse` returns an error and no rates,
discarding every other observation; when it succeeds, every observation
was well formed and the list has one rate per observation — a partial list
is never returned. -/
theorem C9_all_or_nothing (now : GoTime) (data : List RawExchangeRateData)
    (hne : data ≠ []) :
    ((∃ item ∈ data, ∃ e, processObservation now item = .error e) →
      ∃ e, ProcessResponse now 200 (.ok data) = .error e) ∧
    (∀ rates, ProcessResponse now 200 (.ok data) = .ok rates →
      rates.length = data.length ∧
        ∀ item ∈ data, ∃ r, processObservation now item = .ok r) := by
  have hpr : ProcessResponse now 200 (.ok data) = processObservations now data := by
    unfold ProcessResponse
    rw [if_neg (fun h => h rfl)]
    dsimp only
    rw [if_neg hne]
  constructor
  · intro hex
    obtain ⟨e, he⟩ := processObservations_error_of_mem now data hex
    exact ⟨e, by rw [hpr, he]⟩
  · intro rates h
    exact processObservations_ok now data rates (hpr ▸ h)

/-- C9 witness: a payload with one well-formed observation and one whose
record day "32" fails the date parse — the whole response is rejected. -/
theorem C9_witness :
    (∃ e, ProcessResponse ⟨2024, 1, 1, 0⟩ 200
        (.ok [⟨"Real", "5.25", "1", "9", "2023"⟩, ⟨"Real", "5.25", "32", "1", "2023"⟩])
      = .error e) :=
  (C9_all_or_nothing ⟨2024, 1, 1, 0⟩
      [⟨"Real", "5.25", "1", "9", "2023"⟩, ⟨"Real", "5.25", "32", "1", "2023"⟩]
      (by simp)).1
    ⟨⟨"Real", "5.25", "32", "1", "2023"⟩, by simp,
      .errParsingExchangeRateDateOfRecord, by decide⟩

end Wex
